import Mathlib

/-!
Verification of the KVM dirty-page ring buffer (virt/kvm dirty_ring).

The embedding models the primary variant of the ring code: the free-running
u32 counters `dirty_index` / `reset_index`, the shared index pair
(`fetch_index` / `avail_index`), `kvm_dirty_ring_push`, and
`kvm_dirty_ring_reset` with its coalescing loop.  Machine integers are
modelled as `Nat` with explicit reduction modulo `2^32` (u32) and `2^64`
(u64 / unsigned long); the external collaborator `kvm_reset_dirty_gfn` is
modelled by recording the list of calls made to it, in order.
-/

namespace DirtyRing

/-- Modulus of a 32-bit unsigned integer. -/
def U32 : Nat := 4294967296

/-- Modulus of a 64-bit unsigned integer (`unsigned long` / `u64`). -/
def U64 : Nat := 18446744073709551616

/-- `BITS_PER_LONG` on the 64-bit configuration the ring code targets. -/
def BITS_PER_LONG : Nat := 64

/-- u32 subtraction `a - b` with wraparound, as C computes it on `u32`
operands (operands first truncated to 32 bits). -/
def u32_sub (a b : Nat) : Nat := (a % U32 + U32 - b % U32) % U32

/-- u64 subtraction `a - b` with wraparound modulo `2^64`. -/
def u64_sub (a b : Nat) : Nat := (a % U64 + U64 - b % U64) % U64

/-- Reinterpret a u64 bit pattern as a signed 64-bit value (`s64`),
as the C cast in `s64 delta = next_offset - cur_offset` does. -/
def s64_of_u64 (n : Nat) : Int :=
  if n % U64 < 9223372036854775808 then (n % U64 : Int)
  else (n % U64 : Int) - (U64 : Int)

/-- One dirty-ring entry: `struct kvm_dirty_gfn { u32 slot; u64 offset; }`. -/
structure kvm_dirty_gfn where
  slot : Nat
  offset : Nat
deriving Repr, DecidableEq

/-- `struct kvm_dirty_ring`: the free-running u32 counters, the capacity,
the soft limit and the entry array. -/
structure kvm_dirty_ring where
  dirty_index : Nat
  reset_index : Nat
  size : Nat
  soft_limit : Nat
  dirty_gfns : List kvm_dirty_gfn
deriving Repr, DecidableEq

/-- `struct kvm_dirty_ring_indices`: the index pair shared with the
consumer (`fetch_index` written by userspace, `avail_index` by the kernel). -/
structure kvm_dirty_ring_indices where
  fetch_index : Nat
  avail_index : Nat
deriving Repr, DecidableEq

/-- `kvm_dirty_ring_used`: `dirty_index - reset_index` in u32 arithmetic. -/
def kvm_dirty_ring_used (ring : kvm_dirty_ring) : Nat :=
  u32_sub ring.dirty_index ring.reset_index

/-- `kvm_dirty_ring_soft_full`: used count has reached `soft_limit`. -/
def kvm_dirty_ring_soft_full (ring : kvm_dirty_ring) : Bool :=
  decide (ring.soft_limit ≤ kvm_dirty_ring_used ring)

/-- `kvm_dirty_ring_full`: used count has reached `size`. -/
def kvm_dirty_ring_full (ring : kvm_dirty_ring) : Bool :=
  decide (ring.size ≤ kvm_dirty_ring_used ring)

/-- The ring produced by `kvm_dirty_ring_alloc`: zero-initialized storage of
`size` entries, both counters zero, and `soft_limit = size - rsvd` where
`rsvd` stands for `kvm_dirty_ring_get_rsvd_entries()`
(`KVM_DIRTY_RING_RSVD_ENTRIES + kvm_cpu_dirty_log_size()`, a constant whose
numeric value is not part of the ring code itself). -/
def kvm_dirty_ring_alloc (size rsvd : Nat) : kvm_dirty_ring :=
  { dirty_index := 0
    reset_index := 0
    size := size
    soft_limit := size - rsvd
    dirty_gfns := List.replicate size ⟨0, 0⟩ }

/-- Result of `kvm_dirty_ring_push`: the C return value (0 or `-EBUSY`),
and the ring / shared-indices state after the call. -/
structure PushResult where
  ret : Int
  ring : kvm_dirty_ring
  indices : kvm_dirty_ring_indices
deriving Repr, DecidableEq

/-- `kvm_dirty_ring_push(ring, slot, offset)`.  `hasVcpu` models whether
`kvm_get_running_vcpu()` returned a vCPU (a dedicated owning context).
On success the entry is written at `dirty_index & (size - 1)`, then
`dirty_index` is incremented (u32) and published as `avail_index`. -/
def kvm_dirty_ring_push (ring : kvm_dirty_ring) (indices : kvm_dirty_ring_indices)
    (hasVcpu : Bool) (slot offset : Nat) : PushResult :=
  if hasVcpu = false ∧ kvm_dirty_ring_soft_full ring = true then
    ⟨-16, ring, indices⟩
  else
    let pos := ring.dirty_index &&& (ring.size - 1)
    let gfns := ring.dirty_gfns.set pos ⟨slot, offset⟩
    let dirty := (ring.dirty_index + 1) % U32
    ⟨0, { ring with dirty_gfns := gfns, dirty_index := dirty },
       { indices with avail_index := dirty }⟩

/-- A recorded call to the external collaborator
`kvm_reset_dirty_gfn(kvm, slot, offset, mask)`: `(slot, offset, mask)`. -/
abbrev FlushCall : Type := Nat × Nat × Nat

/-- The local state of the reset loop: the ring (whose `reset_index`
advances) plus `cur_slot`, `cur_offset`, `mask`, `count`, `first_round`,
and the list of collaborator calls made so far. -/
structure ResetLoopState where
  ring : kvm_dirty_ring
  cur_slot : Nat
  cur_offset : Nat
  mask : Nat
  count : Nat
  first_round : Bool
  flushes : List FlushCall
deriving Repr, DecidableEq

/-- One iteration of the body of the reset loop: read the entry at
`reset_index & (size - 1)`, advance `reset_index` (u32) and `count`, then
either coalesce into `mask` (same slot, delta within a machine word, with
the shift-overflow guard for backward visits) or flush the accumulated
batch and reseed. -/
def reset_iter (st : ResetLoopState) : ResetLoopState :=
  let entry := st.ring.dirty_gfns.getD (st.ring.reset_index &&& (st.ring.size - 1)) ⟨0, 0⟩
  let next_slot := entry.slot
  let next_offset := entry.offset
  let st1 : ResetLoopState :=
    { st with
      ring := { st.ring with reset_index := (st.ring.reset_index + 1) % U32 }
      count := st.count + 1 }
  let flushed : ResetLoopState :=
    { st1 with
      flushes := st1.flushes ++ [(st1.cur_slot, st1.cur_offset, st1.mask)]
      cur_slot := next_slot
      cur_offset := next_offset
      mask := 1
      first_round := false }
  if st1.first_round = false ∧ next_slot = st1.cur_slot then
    let delta : Int := s64_of_u64 (u64_sub next_offset st1.cur_offset)
    if 0 ≤ delta ∧ delta < BITS_PER_LONG then
      { st1 with mask := st1.mask ||| (1 <<< delta.toNat) }
    else if -(BITS_PER_LONG : Int) < delta ∧ delta < 0 ∧
        ((st1.mask <<< (-delta).toNat) % U64) >>> (-delta).toNat = st1.mask then
      { st1 with
        cur_offset := next_offset
        mask := ((st1.mask <<< (-delta).toNat) % U64) ||| 1 }
    else flushed
  else flushed

/-- The reset while-loop `while (ring->reset_index != fetch)`.  The fuel is
the u32 distance from `reset_index` to `fetch`, which decreases by exactly
one per iteration, so running with that fuel is the exact loop behavior. -/
def kvm_dirty_ring_reset_loop (fetch : Nat) : Nat → ResetLoopState → ResetLoopState
  | 0, st => st
  | fuel + 1, st =>
    if st.ring.reset_index = fetch then st
    else kvm_dirty_ring_reset_loop fetch fuel (reset_iter st)

/-- Result of `kvm_dirty_ring_reset`: the C return value (`-EINVAL` or the
count of consumed entries), the ring state after the call, and the ordered
list of `kvm_reset_dirty_gfn` calls performed. -/
structure ResetResult where
  ret : Int
  ring : kvm_dirty_ring
  flushes : List FlushCall
deriving Repr, DecidableEq

/-- `kvm_dirty_ring_reset(kvm, ring)`: read the untrusted `fetch_index`,
reject it with `-EINVAL` when `fetch - reset_index > size` (u32), return 0
when `fetch == reset_index`, otherwise run the coalescing loop and emit the
final unconditional flush of the accumulated batch. -/
def kvm_dirty_ring_reset (ring : kvm_dirty_ring)
    (indices : kvm_dirty_ring_indices) : ResetResult :=
  let fetch := indices.fetch_index
  if u32_sub fetch ring.reset_index > ring.size then ⟨-22, ring, []⟩
  else if fetch = ring.reset_index then ⟨0, ring, []⟩
  else
    let st := kvm_dirty_ring_reset_loop fetch (u32_sub fetch ring.reset_index)
      ⟨ring, 0, 0, 0, 0, true, []⟩
    ⟨(st.count : Int), st.ring, st.flushes ++ [(st.cur_slot, st.cur_offset, st.mask)]⟩

/-- A sequence of pushes, each described by `(hasVcpu, slot, offset)`,
applied in order; the Bool result records whether every push returned 0. -/
def pushSeq : List (Bool × Nat × Nat) → kvm_dirty_ring → kvm_dirty_ring_indices →
    kvm_dirty_ring × kvm_dirty_ring_indices × Bool
  | [], r, i => (r, i, true)
  | (hv, s, o) :: rest, r, i =>
    let res := kvm_dirty_ring_push r i hv s o
    let tail := pushSeq rest res.ring res.indices
    (tail.1, tail.2.1, (res.ret == 0) && tail.2.2)

/-! ## Arithmetic helper lemmas on the u32 counters -/

theorem u32_sub_self (a : Nat) : u32_sub a a = 0 := by
  unfold u32_sub U32
  omega

theorem u32_sub_eq_of_lt {a b : Nat} (ha : a < U32) (hb : b < U32) :
    u32_sub a b = (a + U32 - b) % U32 := by
  unfold u32_sub
  rw [Nat.mod_eq_of_lt ha, Nat.mod_eq_of_lt hb]

theorem u32_sub_eq_zero_iff {a b : Nat} (ha : a < U32) (hb : b < U32) :
    u32_sub a b = 0 ↔ a = b := by
  rw [u32_sub_eq_of_lt ha hb]
  unfold U32 at *
  omega

theorem u32_sub_succ {a b : Nat} (ha : a < U32) (hb : b < U32) (hne : b ≠ a) :
    u32_sub a ((b + 1) % U32) = u32_sub a b - 1 := by
  rw [u32_sub_eq_of_lt ha hb, u32_sub_eq_of_lt ha (Nat.mod_lt _ (by decide))]
  unfold U32 at *
  omega

theorem u32_sub_zero {a : Nat} (ha : a < U32) : u32_sub a 0 = a := by
  unfold u32_sub U32 at *
  omega

theorem u32_sub_mod_of_le {r f : Nat} (h : r ≤ f) (hlt : f - r < U32) :
    u32_sub (f % U32) (r % U32) = f - r := by
  unfold u32_sub U32 at *
  omega

/-! ## Structural lemmas about the reset loop -/

theorem reset_iter_fields (st : ResetLoopState) :
    (reset_iter st).ring.reset_index = (st.ring.reset_index + 1) % U32 ∧
    (reset_iter st).ring.dirty_index = st.ring.dirty_index ∧
    (reset_iter st).ring.size = st.ring.size ∧
    (reset_iter st).ring.soft_limit = st.ring.soft_limit ∧
    (reset_iter st).ring.dirty_gfns = st.ring.dirty_gfns ∧
    (reset_iter st).count = st.count + 1 := by
  simp only [reset_iter]
  split
  · split
    · simp
    · split
      · simp
      · simp
  · simp

theorem reset_loop_spec (fetch : Nat) (hf : fetch < U32) (fuel : Nat) :
    ∀ st : ResetLoopState, st.ring.reset_index < U32 →
    u32_sub fetch st.ring.reset_index = fuel →
    (kvm_dirty_ring_reset_loop fetch fuel st).ring.reset_index = fetch ∧
    (kvm_dirty_ring_reset_loop fetch fuel st).count = st.count + fuel ∧
    (kvm_dirty_ring_reset_loop fetch fuel st).ring.dirty_index = st.ring.dirty_index ∧
    (kvm_dirty_ring_reset_loop fetch fuel st).ring.size = st.ring.size ∧
    (kvm_dirty_ring_reset_loop fetch fuel st).ring.soft_limit = st.ring.soft_limit ∧
    (kvm_dirty_ring_reset_loop fetch fuel st).ring.dirty_gfns = st.ring.dirty_gfns := by
  induction fuel with
  | zero =>
    intro st hlt hdist
    have heq : fetch = st.ring.reset_index := (u32_sub_eq_zero_iff hf hlt).mp hdist
    simp [kvm_dirty_ring_reset_loop, heq]
  | succ n ih =>
    intro st hlt hdist
    have hne : st.ring.reset_index ≠ fetch := by
      intro h
      rw [h, u32_sub_self] at hdist
      exact Nat.succ_ne_zero n hdist.symm
    have hit := reset_iter_fields st
    obtain ⟨h1, h2, h3, h4, h5, h6⟩ := hit
    have hlt' : (reset_iter st).ring.reset_index < U32 := by
      rw [h1]; exact Nat.mod_lt _ (by decide)
    have hdist' : u32_sub fetch (reset_iter st).ring.reset_index = n := by
      rw [h1, u32_sub_succ hf hlt hne, hdist]
      omega
    have := ih (reset_iter st) hlt' hdist'
    unfold kvm_dirty_ring_reset_loop
    rw [if_neg hne]
    refine ⟨this.1, ?_, ?_, ?_, ?_, ?_⟩
    · rw [this.2.1, h6]; omega
    · rw [this.2.2.1, h2]
    · rw [this.2.2.2.1, h3]
    · rw [this.2.2.2.2.1, h4]
    · rw [this.2.2.2.2.2, h5]

/-- A reset whose published `fetch_index` equals `reset_index` is a no-op
returning 0 and performing no collaborator calls, on every ring state. -/
theorem reset_noop (ring : kvm_dirty_ring) (idx : kvm_dirty_ring_indices)
    (h : idx.fetch_index = ring.reset_index) :
    kvm_dirty_ring_reset ring idx = ⟨0, ring, []⟩ := by
  simp only [kvm_dirty_ring_reset, h, u32_sub_self]
  simp

/-- A reset that passes the range check consumes exactly the u32 distance
from `reset_index` to `fetch_index`, advances `reset_index` to
`fetch_index`, and changes no other ring field. -/
theorem reset_spec (ring : kvm_dirty_ring) (idx : kvm_dirty_ring_indices)
    (hr : ring.reset_index < U32) (hf : idx.fetch_index < U32)
    (hok : u32_sub idx.fetch_index ring.reset_index ≤ ring.size) :
    (kvm_dirty_ring_reset ring idx).ret =
      (u32_sub idx.fetch_index ring.reset_index : Int) ∧
    (kvm_dirty_ring_reset ring idx).ring.reset_index = idx.fetch_index ∧
    (kvm_dirty_ring_reset ring idx).ring.dirty_index = ring.dirty_index ∧
    (kvm_dirty_ring_reset ring idx).ring.size = ring.size ∧
    (kvm_dirty_ring_reset ring idx).ring.soft_limit = ring.soft_limit ∧
    (kvm_dirty_ring_reset ring idx).ring.dirty_gfns = ring.dirty_gfns := by
  by_cases he : idx.fetch_index = ring.reset_index
  · rw [reset_noop ring idx he, he, u32_sub_self]
    simp
  · have hloop := reset_loop_spec idx.fetch_index hf
      (u32_sub idx.fetch_index ring.reset_index)
      ⟨ring, 0, 0, 0, 0, true, []⟩ hr rfl
    simp only [kvm_dirty_ring_reset, if_neg (Nat.not_lt.mpr hok), if_neg he]
    exact ⟨by rw [hloop.2.1]; simp, hloop.1, hloop.2.2.1, hloop.2.2.2.1,
      hloop.2.2.2.2.1, hloop.2.2.2.2.2⟩

/-! ## Claim theorems -/

/-- C2: a reset whose published `fetch_index` is more than `size` away from
`reset_index` (in u32 distance) returns `-EINVAL`, performs no flush
callbacks and leaves the whole ring state unchanged; a reset whose
`fetch_index` is within that bound never returns `-EINVAL`. -/
theorem reset_invalid_range_spec (ring : kvm_dirty_ring) (idx : kvm_dirty_ring_indices) :
    (ring.size < u32_sub idx.fetch_index ring.reset_index →
      kvm_dirty_ring_reset ring idx = ⟨-22, ring, []⟩) ∧
    (u32_sub idx.fetch_index ring.reset_index ≤ ring.size →
      (kvm_dirty_ring_reset ring idx).ret ≠ -22) := by
  constructor
  · intro h
    simp only [kvm_dirty_ring_reset, if_pos h]
  · intro h
    simp only [kvm_dirty_ring_reset, if_neg (Nat.not_lt.mpr h)]
    split
    · intro hc
      simp at hc
    · intro hc
      simp at hc

theorem reset_invalid_range_spec_witness :
    kvm_dirty_ring_reset (kvm_dirty_ring_alloc 4 1) ⟨6, 0⟩ =
      ⟨-22, kvm_dirty_ring_alloc 4 1, []⟩ ∧
    (kvm_dirty_ring_reset (kvm_dirty_ring_alloc 4 1) ⟨3, 0⟩).ret ≠ -22 :=
  ⟨(reset_invalid_range_spec (kvm_dirty_ring_alloc 4 1) ⟨6, 0⟩).1 (by decide),
   (reset_invalid_range_spec (kvm_dirty_ring_alloc 4 1) ⟨3, 0⟩).2 (by decide)⟩

/-- C4 (amended): push returns `-EBUSY` exactly when the caller has no
running-vCPU context and the used count has reached `soft_limit`; in every
other case, in particular for an owning context above `soft_limit`, push
succeeds and its return value is always 0 (the return value carries no
soft-full indication). -/
theorem push_busy_iff (ring : kvm_dirty_ring) (idx : kvm_dirty_ring_indices)
    (hv : Bool) (s o : Nat) :
    ((kvm_dirty_ring_push ring idx hv s o).ret = -16 ↔
      hv = false ∧ kvm_dirty_ring_soft_full ring = true) ∧
    (¬(hv = false ∧ kvm_dirty_ring_soft_full ring = true) →
      (kvm_dirty_ring_push ring idx hv s o).ret = 0) := by
  by_cases hb : hv = false ∧ kvm_dirty_ring_soft_full ring = true
  · simp [kvm_dirty_ring_push, hb]
  · simp [kvm_dirty_ring_push, hb]

theorem push_busy_iff_witness :
    (kvm_dirty_ring_push (kvm_dirty_ring_alloc 4 1) ⟨0, 0⟩ true 1 2).ret = 0 :=
  (push_busy_iff (kvm_dirty_ring_alloc 4 1) ⟨0, 0⟩ true 1 2).2 (by decide)

/-- C4 counterexample: the return value of a successful push does not
indicate soft-fullness.  A push into a ring that is not soft-full
afterwards (or before) and a push into a ring that is soft-full both return
the same value 0, so no function of the return value can tell the two
apart. -/
theorem push_ret_not_soft_full_signal :
    ((kvm_dirty_ring_push (kvm_dirty_ring_alloc 4 1) ⟨0, 0⟩ true 0 0).ret = 0 ∧
     kvm_dirty_ring_soft_full (kvm_dirty_ring_alloc 4 1) = false ∧
     kvm_dirty_ring_soft_full
       (kvm_dirty_ring_push (kvm_dirty_ring_alloc 4 1) ⟨0, 0⟩ true 0 0).ring = false) ∧
    (let b0 := kvm_dirty_ring_push (kvm_dirty_ring_alloc 2 1) ⟨0, 0⟩ true 0 0
     kvm_dirty_ring_soft_full b0.ring = true ∧
     (kvm_dirty_ring_push b0.ring b0.indices true 0 0).ret = 0 ∧
     kvm_dirty_ring_soft_full
       (kvm_dirty_ring_push b0.ring b0.indices true 0 0).ring = true) := by
  decide

/-- C9: reset is idempotent at a fixed watermark: when the published
`fetch_index` equals `reset_index` the reset is a no-op returning 0 with no
flushes; consequently, after any reset that did not fail the range check, a
second reset with the same unchanged `fetch_index` returns 0, performs no
flushes and changes nothing. -/
theorem reset_idempotent (ring : kvm_dirty_ring) (idx : kvm_dirty_ring_indices)
    (hr : ring.reset_index < U32) (hf : idx.fetch_index < U32) :
    (idx.fetch_index = ring.reset_index →
      kvm_dirty_ring_reset ring idx = ⟨0, ring, []⟩) ∧
    (0 ≤ (kvm_dirty_ring_reset ring idx).ret →
      kvm_dirty_ring_reset (kvm_dirty_ring_reset ring idx).ring idx =
        ⟨0, (kvm_dirty_ring_reset ring idx).ring, []⟩) := by
  constructor
  · exact reset_noop ring idx
  · intro hnn
    by_cases hok : u32_sub idx.fetch_index ring.reset_index ≤ ring.size
    · exact reset_noop _ idx ((reset_spec ring idx hr hf hok).2.1).symm
    · exfalso
      have : kvm_dirty_ring_reset ring idx = ⟨-22, ring, []⟩ := by
        simp only [kvm_dirty_ring_reset, if_pos (Nat.lt_of_not_le hok)]
      rw [this] at hnn
      simp at hnn

theorem reset_idempotent_witness :
    kvm_dirty_ring_reset (kvm_dirty_ring_alloc 4 1) ⟨0, 0⟩ =
      ⟨0, kvm_dirty_ring_alloc 4 1, []⟩ :=
  (reset_idempotent (kvm_dirty_ring_alloc 4 1) ⟨0, 0⟩ (by decide) (by decide)).1 (by decide)

/-- C10: the u32 used-count and the u32 range check are wraparound-safe.
For unbounded counters `R ≤ D ≤ R + size` stored as u32 values, the modular
difference equals the true number of un-consumed entries, and the
`fetch - reset_index > size` check rejects exactly the fetch values outside
the unbounded interval `[R, R + size]`, even across a 2^32 wrap. -/
theorem u32_wraparound_safe (R D F size soft av : Nat) (gfns : List kvm_dirty_gfn)
    (hsz : size < U32) (h1 : R ≤ D) (h2 : D ≤ R + size)
    (h3 : R ≤ F) (h4 : F < R + U32) :
    kvm_dirty_ring_used ⟨D % U32, R % U32, size, soft, gfns⟩ = D - R ∧
    (u32_sub (F % U32) (R % U32) ≤ size ↔ F ≤ R + size) ∧
    ((kvm_dirty_ring_reset ⟨D % U32, R % U32, size, soft, gfns⟩ ⟨F % U32, av⟩).ret = -22 ↔
      ¬ F ≤ R + size) := by
  have hused : u32_sub (D % U32) (R % U32) = D - R :=
    u32_sub_mod_of_le h1 (by omega)
  have hd : u32_sub (F % U32) (R % U32) = F - R :=
    u32_sub_mod_of_le h3 (by omega)
  refine ⟨hused, by rw [hd]; omega, ?_⟩
  by_cases hle : F ≤ R + size
  · have hok : u32_sub (F % U32) (R % U32) ≤ size := by rw [hd]; omega
    have hspec := (reset_spec ⟨D % U32, R % U32, size, soft, gfns⟩ ⟨F % U32, av⟩
      (Nat.mod_lt _ (by decide)) (Nat.mod_lt _ (by decide)) hok).1
    rw [hspec]
    constructor
    · intro hc; omega
    · intro hc; exact absurd hle hc
  · have hgt : size < u32_sub (F % U32) (R % U32) := by rw [hd]; omega
    have : kvm_dirty_ring_reset ⟨D % U32, R % U32, size, soft, gfns⟩ ⟨F % U32, av⟩ =
        ⟨-22, ⟨D % U32, R % U32, size, soft, gfns⟩, []⟩ := by
      simp only [kvm_dirty_ring_reset, if_pos hgt]
    rw [this]
    simp [hle]

theorem u32_wraparound_safe_witness :
    kvm_dirty_ring_used ⟨4294967297 % U32, 4294967294 % U32, 8, 3, []⟩ =
      4294967297 - 4294967294 ∧
    (u32_sub (4294967296 % U32) (4294967294 % U32) ≤ 8 ↔
      (4294967296 : Nat) ≤ 4294967294 + 8) ∧
    ((kvm_dirty_ring_reset ⟨4294967297 % U32, 4294967294 % U32, 8, 3, []⟩
        ⟨4294967296 % U32, 0⟩).ret = -22 ↔ ¬ (4294967296 : Nat) ≤ 4294967294 + 8) :=
  u32_wraparound_safe 4294967294 4294967297 4294967296 8 3 0 []
    (by decide) (by decide) (by decide) (by decide) (by decide)

/-- C8: a successful push writes the entry at physical position
`dirty_index mod size` (the code's `dirty_index & (size - 1)`, equal for
the power-of-two sizes the ring uses), increments `dirty_index` by exactly
one (as a u32), publishes the new `dirty_index` as `avail_index`, and
changes no other ring or index field. -/
theorem push_success_effects (ring : kvm_dirty_ring) (idx : kvm_dirty_ring_indices)
    (hv : Bool) (s o k : Nat) (hpow : ring.size = 2 ^ k)
    (hok : (kvm_dirty_ring_push ring idx hv s o).ret = 0) :
    (kvm_dirty_ring_push ring idx hv s o).ring.dirty_gfns =
      ring.dirty_gfns.set (ring.dirty_index % ring.size) ⟨s, o⟩ ∧
    (kvm_dirty_ring_push ring idx hv s o).ring.dirty_index =
      (ring.dirty_index + 1) % U32 ∧
    (ring.dirty_index + 1 < U32 →
      (kvm_dirty_ring_push ring idx hv s o).ring.dirty_index = ring.dirty_index + 1) ∧
    (kvm_dirty_ring_push ring idx hv s o).indices.avail_index =
      (kvm_dirty_ring_push ring idx hv s o).ring.dirty_index ∧
    (kvm_dirty_ring_push ring idx hv s o).indices.fetch_index = idx.fetch_index ∧
    (kvm_dirty_ring_push ring idx hv s o).ring.reset_index = ring.reset_index ∧
    (kvm_dirty_ring_push ring idx hv s o).ring.size = ring.size ∧
    (kvm_dirty_ring_push ring idx hv s o).ring.soft_limit = ring.soft_limit := by
  by_cases hb : hv = false ∧ kvm_dirty_ring_soft_full ring = true
  · simp [kvm_dirty_ring_push, hb] at hok
  · refine ⟨?_, ?_, ?_, ?_, ?_, ?_, ?_, ?_⟩ <;>
      (unfold kvm_dirty_ring_push; rw [if_neg hb]) <;>
      first
      | rfl
      | (show ring.dirty_gfns.set (ring.dirty_index &&& (ring.size - 1)) ⟨s, o⟩ =
            ring.dirty_gfns.set (ring.dirty_index % ring.size) ⟨s, o⟩
         rw [hpow, Nat.and_pow_two_sub_one_eq_mod])
      | (intro h; exact Nat.mod_eq_of_lt h)

theorem push_success_effects_witness :
    (kvm_dirty_ring_push (kvm_dirty_ring_alloc 4 1) ⟨0, 0⟩ true 5 6).ring.dirty_index = 1 :=
  ((push_success_effects (kvm_dirty_ring_alloc 4 1) ⟨0, 0⟩ true 5 6 2
      (by decide) (by decide)).2.2.1 (by decide))

/-- Pushing below the soft limit always succeeds and bumps `dirty_index`
by one, regardless of the caller's vCPU context. -/
theorem push_below_soft (r : kvm_dirty_ring) (idx : kvm_dirty_ring_indices)
    (hv : Bool) (s o : Nat)
    (h0 : r.reset_index = 0) (hd : r.dirty_index < r.soft_limit)
    (hs : r.soft_limit ≤ r.size) (hsz : r.size < U32) :
    (kvm_dirty_ring_push r idx hv s o).ret = 0 ∧
    (kvm_dirty_ring_push r idx hv s o).ring.dirty_index = r.dirty_index + 1 ∧
    (kvm_dirty_ring_push r idx hv s o).ring.reset_index = 0 ∧
    (kvm_dirty_ring_push r idx hv s o).ring.size = r.size ∧
    (kvm_dirty_ring_push r idx hv s o).ring.soft_limit = r.soft_limit := by
  have hdu : r.dirty_index < U32 := by omega
  have hused : kvm_dirty_ring_used r = r.dirty_index := by
    unfold kvm_dirty_ring_used
    rw [h0, u32_sub_zero hdu]
  have hb : ¬ (hv = false ∧ kvm_dirty_ring_soft_full r = true) := by
    rintro ⟨-, hsf⟩
    unfold kvm_dirty_ring_soft_full at hsf
    rw [hused] at hsf
    have := of_decide_eq_true hsf
    omega
  have hmod : (r.dirty_index + 1) % U32 = r.dirty_index + 1 :=
    Nat.mod_eq_of_lt (by omega)
  refine ⟨?_, ?_, ?_, ?_, ?_⟩ <;>
    (unfold kvm_dirty_ring_push; rw [if_neg hb]) <;>
    first
    | rfl
    | exact hmod
    | exact h0

/-- A sequence of pushes that stays within the soft limit: all pushes
succeed, `dirty_index` counts them, and nothing else changes. -/
theorem pushSeq_spec (ops : List (Bool × Nat × Nat)) :
    ∀ (r : kvm_dirty_ring) (idx : kvm_dirty_ring_indices),
    r.reset_index = 0 → r.dirty_index + ops.length ≤ r.soft_limit →
    r.soft_limit ≤ r.size → r.size < U32 →
    (pushSeq ops r idx).1.dirty_index = r.dirty_index + ops.length ∧
    (pushSeq ops r idx).1.reset_index = 0 ∧
    (pushSeq ops r idx).1.size = r.size ∧
    (pushSeq ops r idx).1.soft_limit = r.soft_limit ∧
    (pushSeq ops r idx).2.2 = true := by
  induction ops with
  | nil =>
    intro r idx h0 h1 h2 h3
    exact ⟨rfl, h0, rfl, rfl, rfl⟩
  | cons op rest ih =>
    intro r idx h0 h1 h2 h3
    obtain ⟨hv, s, o⟩ := op
    rw [List.length_cons] at h1
    have hstep := push_below_soft r idx hv s o h0 (by omega) h2 h3
    obtain ⟨hret, hdirty, hres, hsz, hsoft⟩ := hstep
    have hrest := ih (kvm_dirty_ring_push r idx hv s o).ring
      (kvm_dirty_ring_push r idx hv s o).indices
      hres
      (by rw [hdirty, hsoft]; omega)
      (by rw [hsoft, hsz]; exact h2)
      (by rw [hsz]; exact h3)
    simp only [pushSeq, List.length_cons]
    refine ⟨?_, hrest.2.1, ?_, ?_, ?_⟩
    · rw [hrest.1, hdirty]
      omega
    · rw [hrest.2.2.1, hsz]
    · rw [hrest.2.2.2.1, hsoft]
    · rw [hret, hrest.2.2.2.2]
      simp

/-- C3: pushing any sequence of at most `soft_limit` entries into a
freshly allocated ring succeeds entirely, and a reset with the published
`fetch_index` equal to `dirty_index` then returns exactly the number of
pushed entries and leaves `reset_index` equal to `dirty_index`. -/
theorem reset_returns_push_count (size rsvd : Nat) (ops : List (Bool × Nat × Nat))
    (idx : kvm_dirty_ring_indices)
    (h1 : size < U32) (h2 : ops.length ≤ size - rsvd) :
    (pushSeq ops (kvm_dirty_ring_alloc size rsvd) idx).2.2 = true ∧
    (kvm_dirty_ring_reset (pushSeq ops (kvm_dirty_ring_alloc size rsvd) idx).1
      { (pushSeq ops (kvm_dirty_ring_alloc size rsvd) idx).2.1 with
        fetch_index := (pushSeq ops (kvm_dirty_ring_alloc size rsvd) idx).1.dirty_index }).ret =
      (ops.length : Int) ∧
    (kvm_dirty_ring_reset (pushSeq ops (kvm_dirty_ring_alloc size rsvd) idx).1
      { (pushSeq ops (kvm_dirty_ring_alloc size rsvd) idx).2.1 with
        fetch_index := (pushSeq ops (kvm_dirty_ring_alloc size rsvd) idx).1.dirty_index }).ring.reset_index =
    (kvm_dirty_ring_reset (pushSeq ops (kvm_dirty_ring_alloc size rsvd) idx).1
      { (pushSeq ops (kvm_dirty_ring_alloc size rsvd) idx).2.1 with
        fetch_index := (pushSeq ops (kvm_dirty_ring_alloc size rsvd) idx).1.dirty_index }).ring.dirty_index := by
  have hps := pushSeq_spec ops (kvm_dirty_ring_alloc size rsvd) idx rfl
    (by simpa [kvm_dirty_ring_alloc] using h2) (Nat.sub_le size rsvd) h1
  obtain ⟨hdirty, hreset, hsize, hsoft, hok⟩ := hps
  have hlen : ops.length ≤ size := le_trans h2 (Nat.sub_le size rsvd)
  have hzero : (0 : Nat) + ops.length = ops.length := Nat.zero_add _
  rw [show (kvm_dirty_ring_alloc size rsvd).dirty_index = 0 from rfl, hzero] at hdirty
  have hspec := reset_spec (pushSeq ops (kvm_dirty_ring_alloc size rsvd) idx).1
    { (pushSeq ops (kvm_dirty_ring_alloc size rsvd) idx).2.1 with
      fetch_index := (pushSeq ops (kvm_dirty_ring_alloc size rsvd) idx).1.dirty_index }
    (by rw [hreset]; decide)
    (by simpa [hdirty] using lt_of_le_of_lt hlen h1)
    (by simp only [hdirty, hreset, hsize]
        rw [u32_sub_zero (lt_of_le_of_lt hlen h1)]
        exact hlen)
  refine ⟨hok, ?_, ?_⟩
  · rw [hspec.1]
    simp only [hdirty, hreset]
    rw [u32_sub_zero (lt_of_le_of_lt hlen h1)]
  · rw [hspec.2.1, hspec.2.2.1]

theorem reset_returns_push_count_witness :
    (pushSeq [(true, 1, 0), (false, 2, 5)] (kvm_dirty_ring_alloc 4 1) ⟨0, 0⟩).2.2 = true ∧
    (kvm_dirty_ring_reset (pushSeq [(true, 1, 0), (false, 2, 5)] (kvm_dirty_ring_alloc 4 1) ⟨0, 0⟩).1
      { (pushSeq [(true, 1, 0), (false, 2, 5)] (kvm_dirty_ring_alloc 4 1) ⟨0, 0⟩).2.1 with
        fetch_index := (pushSeq [(true, 1, 0), (false, 2, 5)] (kvm_dirty_ring_alloc 4 1) ⟨0, 0⟩).1.dirty_index }).ret =
      (([(true, 1, 0), (false, 2, 5)] : List (Bool × Nat × Nat)).length : Int) ∧
    (kvm_dirty_ring_reset (pushSeq [(true, 1, 0), (false, 2, 5)] (kvm_dirty_ring_alloc 4 1) ⟨0, 0⟩).1
      { (pushSeq [(true, 1, 0), (false, 2, 5)] (kvm_dirty_ring_alloc 4 1) ⟨0, 0⟩).2.1 with
        fetch_index := (pushSeq [(true, 1, 0), (false, 2, 5)] (kvm_dirty_ring_alloc 4 1) ⟨0, 0⟩).1.dirty_index }).ring.reset_index =
    (kvm_dirty_ring_reset (pushSeq [(true, 1, 0), (false, 2, 5)] (kvm_dirty_ring_alloc 4 1) ⟨0, 0⟩).1
      { (pushSeq [(true, 1, 0), (false, 2, 5)] (kvm_dirty_ring_alloc 4 1) ⟨0, 0⟩).2.1 with
        fetch_index := (pushSeq [(true, 1, 0), (false, 2, 5)] (kvm_dirty_ring_alloc 4 1) ⟨0, 0⟩).1.dirty_index }).ring.dirty_index :=
  reset_returns_push_count 4 1 [(true, 1, 0), (false, 2, 5)] ⟨0, 0⟩ (by decide) (by decide)

theorem reset_loop_one (fetch : Nat) (st : ResetLoopState) :
    kvm_dirty_ring_reset_loop fetch 1 st =
      if st.ring.reset_index = fetch then st else reset_iter st := rfl

/-- C7 (amended): a reset whose batch is exactly one entry performs exactly
two collaborator calls: the degenerate first-iteration call `(0, 0, 0)`
(empty mask, a no-op for the collaborator) and the unconditional post-loop
flush of the single-entry batch `(slot, offset, 1)`; it returns 1 and
advances `reset_index` to `fetch_index`. -/
theorem single_entry_reset_flushes (ring : kvm_dirty_ring) (idx : kvm_dirty_ring_indices)
    (hr : ring.reset_index < U32) (hf : idx.fetch_index < U32)
    (hsz : 1 ≤ ring.size) (hdist : u32_sub idx.fetch_index ring.reset_index = 1) :
    kvm_dirty_ring_reset ring idx =
      ⟨1, { ring with reset_index := idx.fetch_index },
        [(0, 0, 0),
         ((ring.dirty_gfns.getD (ring.reset_index &&& (ring.size - 1)) ⟨0, 0⟩).slot,
          (ring.dirty_gfns.getD (ring.reset_index &&& (ring.size - 1)) ⟨0, 0⟩).offset,
          1)]⟩ := by
  have hne : ¬ idx.fetch_index = ring.reset_index := by
    intro h
    rw [h, u32_sub_self] at hdist
    exact absurd hdist (by decide)
  have hnotgt : ¬ (u32_sub idx.fetch_index ring.reset_index > ring.size) := by omega
  have hfe : (ring.reset_index + 1) % U32 = idx.fetch_index := by
    rw [u32_sub_eq_of_lt hf hr] at hdist
    unfold U32 at *
    omega
  have hne' : ¬ ring.reset_index = idx.fetch_index := fun h => hne h.symm
  simp only [kvm_dirty_ring_reset, if_neg hnotgt, if_neg hne, hdist, reset_loop_one]
  simp only [reset_iter]
  simp only [if_neg hne']
  simp [hfe]
  omega

theorem single_entry_reset_flushes_witness :
    kvm_dirty_ring_reset ⟨5, 0, 2, 1, [⟨7, 9⟩, ⟨0, 0⟩]⟩ ⟨1, 0⟩ =
      ⟨1, ⟨5, 1, 2, 1, [⟨7, 9⟩, ⟨0, 0⟩]⟩, [(0, 0, 0), (7, 9, 1)]⟩ :=
  single_entry_reset_flushes ⟨5, 0, 2, 1, [⟨7, 9⟩, ⟨0, 0⟩]⟩ ⟨1, 0⟩
    (by decide) (by decide) (by decide) (by decide)

/-- C7 counterexample: a concrete single-entry reset performs two
collaborator calls, not exactly one: harvesting the single pushed entry
`(7, 9)` emits the degenerate call `(0, 0, 0)` and then the real flush. -/
theorem single_entry_reset_not_one_flush :
    (kvm_dirty_ring_reset
      (kvm_dirty_ring_push (kvm_dirty_ring_alloc 2 1) ⟨0, 0⟩ true 7 9).ring
      { (kvm_dirty_ring_push (kvm_dirty_ring_alloc 2 1) ⟨0, 0⟩ true 7 9).indices with
        fetch_index := 1 }).flushes.length ≠ 1 := by
  decide

/-- C5 (amended): pushing `(1,0), (1,1), (1,2)` into a fresh ring and
resetting at `fetch_index = dirty_index` consumes 3 entries and emits
exactly one flush carrying the coalesced batch, `(slot 1, base 0,
mask 0b111)`, preceded by the degenerate first-iteration call `(0,0,0)`. -/
theorem roundtrip_flush_calls :
    (kvm_dirty_ring_push (kvm_dirty_ring_alloc 8 4) ⟨0, 0⟩ true 1 0).ret = 0 ∧
    (let p1 := kvm_dirty_ring_push (kvm_dirty_ring_alloc 8 4) ⟨0, 0⟩ true 1 0
     let p2 := kvm_dirty_ring_push p1.ring p1.indices true 1 1
     let p3 := kvm_dirty_ring_push p2.ring p2.indices true 1 2
     let rr := kvm_dirty_ring_reset p3.ring
       { p3.indices with fetch_index := p3.ring.dirty_index }
     p2.ret = 0 ∧ p3.ret = 0 ∧ rr.ret = 3 ∧
     rr.flushes = [(0, 0, 0), (1, 0, 7)]) := by
  decide

/-- C5 counterexample: the flush-call trace of the `(1,0), (1,1), (1,2)`
round trip is not the single call `(1, 0, 0b111)`: the first loop iteration
emits an additional degenerate call `(0, 0, 0)`. -/
theorem roundtrip_flush_not_single :
    (let p1 := kvm_dirty_ring_push (kvm_dirty_ring_alloc 8 4) ⟨0, 0⟩ true 1 0
     let p2 := kvm_dirty_ring_push p1.ring p1.indices true 1 1
     let p3 := kvm_dirty_ring_push p2.ring p2.indices true 1 2
     (kvm_dirty_ring_reset p3.ring
       { p3.indices with fetch_index := p3.ring.dirty_index }).flushes ≠
       [(1, 0, 7)]) := by
  decide

/-- C6 (amended): pushing `(1,5), (1,3)` into a fresh ring and resetting
at `fetch_index = dirty_index` consumes 2 entries and emits exactly one
flush carrying the coalesced batch, with base offset 3 and mask `0b101`
(bit 0 for page 3 and bit 2 for page 5), preceded by the degenerate
first-iteration call `(0,0,0)`. -/
theorem backward_coalesce_flush_calls :
    (kvm_dirty_ring_push (kvm_dirty_ring_alloc 8 4) ⟨0, 0⟩ true 1 5).ret = 0 ∧
    (let p1 := kvm_dirty_ring_push (kvm_dirty_ring_alloc 8 4) ⟨0, 0⟩ true 1 5
     let p2 := kvm_dirty_ring_push p1.ring p1.indices true 1 3
     let rr := kvm_dirty_ring_reset p2.ring
       { p2.indices with fetch_index := p2.ring.dirty_index }
     p2.ret = 0 ∧ rr.ret = 2 ∧
     rr.flushes = [(0, 0, 0), (1, 3, 5)]) := by
  decide

/-- C6 counterexample: the `(1,5), (1,3)` round trip does not produce the
claimed single flush `(1, 3, 0b100100)`: the backward coalescing step
computes mask `0b101` (= 5), and a degenerate call `(0,0,0)` precedes it. -/
theorem backward_coalesce_not_claimed_mask :
    (let p1 := kvm_dirty_ring_push (kvm_dirty_ring_alloc 8 4) ⟨0, 0⟩ true 1 5
     let p2 := kvm_dirty_ring_push p1.ring p1.indices true 1 3
     (kvm_dirty_ring_reset p2.ring
       { p2.indices with fetch_index := p2.ring.dirty_index }).flushes ≠
       [(1, 3, 36)]) := by
  decide

/-- Ring states reachable from a freshly allocated ring by successful
pushes that never target an already-full ring, and by resets whose
published `fetch_index` lies between `reset_index` and `dirty_index` in
the unbounded reading.  `R` and `D` are the unbounded (ghost) readings of
the free-running u32 counters `reset_index` and `dirty_index`. -/
inductive SafeReach : Nat → Nat → kvm_dirty_ring → Prop where
  | init (size rsvd : Nat) (hsz : size < U32) :
      SafeReach 0 0 (kvm_dirty_ring_alloc size rsvd)
  | push (R D : Nat) (ring : kvm_dirty_ring) (idx : kvm_dirty_ring_indices)
      (hv : Bool) (s o : Nat) (hreach : SafeReach R D ring)
      (hnotfull : D < R + ring.size)
      (hok : (kvm_dirty_ring_push ring idx hv s o).ret = 0) :
      SafeReach R (D + 1) (kvm_dirty_ring_push ring idx hv s o).ring
  | reset (R D F : Nat) (ring : kvm_dirty_ring) (idx : kvm_dirty_ring_indices)
      (hreach : SafeReach R D ring) (hRF : R ≤ F) (hFD : F ≤ D)
      (hfetch : idx.fetch_index = F % U32) :
      SafeReach F D (kvm_dirty_ring_reset ring idx).ring

/-- C1 (amended): on every state reachable by successful not-already-full
pushes and in-range resets, the counters satisfy
`reset_index <= dirty_index <= reset_index + size` in the unbounded
reading: each such push increases the unbounded `dirty_index` by exactly 1
without exceeding `reset_index + size`, and each such reset advances the
unbounded `reset_index` to the consumed watermark, never past
`dirty_index`; the stored u32 fields are these counters modulo 2^32. -/
theorem safeReach_invariant (R D : Nat) (ring : kvm_dirty_ring)
    (h : SafeReach R D ring) :
    R ≤ D ∧ D ≤ R + ring.size ∧
    ring.reset_index = R % U32 ∧ ring.dirty_index = D % U32 ∧ ring.size < U32 := by
  induction h with
  | init size rsvd hsz =>
    exact ⟨Nat.le_refl 0, Nat.zero_le _, (Nat.zero_mod _).symm, (Nat.zero_mod _).symm, hsz⟩
  | push R D ring idx hv s o hreach hnotfull hok ih =>
    obtain ⟨ihRD, ihD, ihr, ihd, ihsz⟩ := ih
    by_cases hb : hv = false ∧ kvm_dirty_ring_soft_full ring = true
    · simp [kvm_dirty_ring_push, hb] at hok
    · have h1 : (kvm_dirty_ring_push ring idx hv s o).ring.reset_index =
          ring.reset_index := by
        unfold kvm_dirty_ring_push
        rw [if_neg hb]
      have h2 : (kvm_dirty_ring_push ring idx hv s o).ring.size = ring.size := by
        unfold kvm_dirty_ring_push
        rw [if_neg hb]
      have h3 : (kvm_dirty_ring_push ring idx hv s o).ring.dirty_index =
          (ring.dirty_index + 1) % U32 := by
        unfold kvm_dirty_ring_push
        rw [if_neg hb]
      refine ⟨by omega, by rw [h2]; omega, by rw [h1, ihr], ?_, by rw [h2]; exact ihsz⟩
      rw [h3, ihd]
      unfold U32
      omega
  | reset R D F ring idx hreach hRF hFD hfetch ih =>
    obtain ⟨ihRD, ihD, ihr, ihd, ihsz⟩ := ih
    have hdr : F - R < U32 := by omega
    have hdist : u32_sub idx.fetch_index ring.reset_index = F - R := by
      rw [hfetch, ihr]
      exact u32_sub_mod_of_le hRF hdr
    have hok : u32_sub idx.fetch_index ring.reset_index ≤ ring.size := by
      rw [hdist]
      omega
    have hr : ring.reset_index < U32 := by
      rw [ihr]
      exact Nat.mod_lt _ (by decide)
    have hf : idx.fetch_index < U32 := by
      rw [hfetch]
      exact Nat.mod_lt _ (by decide)
    have hspec := reset_spec ring idx hr hf hok
    refine ⟨hFD, ?_, ?_, ?_, ?_⟩
    · rw [hspec.2.2.2.1]
      omega
    · rw [hspec.2.1, hfetch]
    · rw [hspec.2.2.1, ihd]
    · rw [hspec.2.2.2.1]
      exact ihsz

theorem safeReach_invariant_witness :
    (0 : Nat) ≤ 1 ∧
    1 ≤ 0 + (kvm_dirty_ring_push (kvm_dirty_ring_alloc 2 1) ⟨0, 0⟩ true 3 4).ring.size ∧
    (kvm_dirty_ring_push (kvm_dirty_ring_alloc 2 1) ⟨0, 0⟩ true 3 4).ring.reset_index =
      0 % U32 ∧
    (kvm_dirty_ring_push (kvm_dirty_ring_alloc 2 1) ⟨0, 0⟩ true 3 4).ring.dirty_index =
      1 % U32 ∧
    (kvm_dirty_ring_push (kvm_dirty_ring_alloc 2 1) ⟨0, 0⟩ true 3 4).ring.size < U32 :=
  safeReach_invariant 0 1 _
    (SafeReach.push 0 0 (kvm_dirty_ring_alloc 2 1) ⟨0, 0⟩ true 3 4
      (SafeReach.init 2 1 (by decide)) (by decide) (by decide))

/-- C1 counterexample: with a running vCPU the code pushes even into an
already-full ring (tripping only a WARN_ON_ONCE), so two successful pushes
into a fresh one-entry ring leave `dirty_index = 2` strictly above
`reset_index + size = 1` — a state reachable purely by successful pushes
that violates the claimed invariant. -/
theorem push_overfull_breaks_invariant :
    (kvm_dirty_ring_push (kvm_dirty_ring_alloc 1 0) ⟨0, 0⟩ true 0 0).ret = 0 ∧
    (let p1 := kvm_dirty_ring_push (kvm_dirty_ring_alloc 1 0) ⟨0, 0⟩ true 0 0
     let p2 := kvm_dirty_ring_push p1.ring p1.indices true 0 0
     p2.ret = 0 ∧ p2.ring.reset_index + p2.ring.size < p2.ring.dirty_index) := by
  decide

end DirtyRing
